import Mathlib

/-!
Verification of the Predictive Prefetch Pipeline.

Shallow embedding of the route-prediction service (`lib/prefetch-service.ts`,
functions `loadModel`, `pathsToSequence`, `predictWithModel`,
`getPredictedRoutes`) and of the prediction/history portion of the edge
middleware (`middleware.ts`), together with proofs of the specified
properties.

Conventions of the embedding:
* JavaScript strings are Lean `String`s; `s.split('/')` is modelled by a
  recursive splitter over `s.data` (the underlying `List Char`).
* JavaScript objects used as string→number maps (the vocabulary) are
  association lists `List (String × Nat)`; `Object.fromEntries` keeps the
  last entry for a duplicated key, so reverse-vocabulary lookup reads the
  association list right-to-left.
* `parseInt` is modelled for the inputs that occur here (path segments,
  which carry no leading whitespace or sign): a `0x`/`0X` prefix switches
  to base 16 exactly as JavaScript's radix auto-detection does, otherwise
  the longest leading run of decimal digits is parsed, and `none` stands
  for JavaScript `NaN`.  The parsed value is an exact natural number;
  JavaScript computes in float64, whose integer arithmetic and plain
  decimal rendering agree with the exact value only below `2 ^ 53`, so
  the theorems about successor routes carry that bound.
* The module-level mutable variables `tf`, `model`, `vocab`,
  `reverseVocab`, `modelLoadPromise` become an explicit state record
  threaded through the operations.  The outcome of the external world
  (whether the TensorFlow module, the model artifact and the vocabulary
  fetch succeed) is a fixed per-process environment record.
* Asynchronous inference (`model.predict` + `tf.topk`) is an oracle: either
  a runtime error or the list of top-k indices.
-/

namespace Prefetch

/-- JavaScript `Array.prototype.slice(-k)` / `String` lists: the last `k`
elements (the whole list when shorter). -/
def jsSliceLast (k : Nat) (l : List α) : List α :=
  l.drop (l.length - k)

/-- JavaScript `s.split('/')` on the character list: splits at every `'/'`,
keeping empty segments (so `"/a/b"` ↦ `["", "a", "b"]`). -/
def splitSlash : List Char → List (List Char)
  | [] => [[]]
  | c :: cs =>
    if c = '/' then [] :: splitSlash cs
    else
      match splitSlash cs with
      | [] => [[c]]
      | t :: ts => (c :: t) :: ts

/-- Numeric value of a list of decimal digit characters (most significant
first). -/
def digitsVal (ds : List Char) : Nat :=
  ds.foldl (fun a c => 10 * a + (c.toNat - 48)) 0

/-- Hexadecimal digit test for `parseInt`'s base-16 branch. -/
def isHexDigitJS (c : Char) : Bool :=
  c.isDigit || ('a' ≤ c && c ≤ 'f') || ('A' ≤ c && c ≤ 'F')

/-- Numeric value of one hexadecimal digit character. -/
def hexDigitVal (c : Char) : Nat :=
  if c.isDigit then c.toNat - 48
  else if 'a' ≤ c then c.toNat - 87
  else c.toNat - 55

/-- Numeric value of a list of hexadecimal digit characters (most
significant first). -/
def hexDigitsVal (ds : List Char) : Nat :=
  ds.foldl (fun a c => 16 * a + hexDigitVal c) 0

/-- Whether a string begins with `parseInt`'s `0x`/`0X` hexadecimal
prefix, which switches the auto-detected radix to 16. -/
def jsIsHexPrefixed (s : List Char) : Bool :=
  match s with
  | c0 :: c1 :: _ => c0 == '0' && (c1 == 'x' || c1 == 'X')
  | _ => false

/-- JavaScript `parseInt(s)` restricted to the shapes that occur in route
segments (no leading whitespace or sign): a `0x`/`0X` prefix selects base
16 — `parseInt("0x10") = 16` — otherwise the longest leading run of
decimal digits is parsed; `none` stands for `NaN`.  The result is an
exact natural number; `parseInt` itself returns a float64, which agrees
with the exact value only up to `2 ^ 53`. -/
def jsParseInt (s : List Char) : Option Nat :=
  if jsIsHexPrefixed s then
    let hs := (s.drop 2).takeWhile isHexDigitJS
    if hs.isEmpty then none else some (hexDigitsVal hs)
  else
    let ds := s.takeWhile Char.isDigit
    if ds.isEmpty then none else some (digitsVal ds)

/-- The string interpolation `` `${parseInt(x) + 1}` ``: a number renders
in decimal, `NaN` renders as `"NaN"`.  The exact increment and decimal
rendering used here coincide with JavaScript's float64 `+ 1` and
`toString` only for values below `2 ^ 53` (float64 integer arithmetic is
exact there, and integers below `1e21` render in plain decimal); the
successor-route theorems restrict themselves to that range. -/
def jsNumSuccStr (v : Option Nat) : String :=
  match v with
  | some n => Nat.repr (n + 1)
  | none => "NaN"

/-- JavaScript `s.startsWith(p)`. -/
def jsStartsWith (s p : String) : Bool :=
  p.data.isPrefixOf s.data

/-- Embedding of `lastPath.split('/')[2]`, as a string (the segment is always present at
the call sites, which are guarded by a `startsWith` containing two `'/'`). -/
def seg2 (s : String) : String :=
  String.mk ((splitSlash s.data).getD 2 [])

/-- The rule-based prediction table of `getPredictedRoutes`
(`prefetch-service.ts` lines 268–288), as a function of the last path.
Each branch pushes exactly the literal routes the source pushes. -/
def ruleFallbackLast (lastPath : String) : List String :=
  if lastPath = "/" then
    ["/category/1", "/category/2", "/profile"]
  else if jsStartsWith lastPath "/category/" then
    let categoryId := seg2 lastPath
    ["/category/" ++ categoryId, "/product/1", "/product/2"]
  else if jsStartsWith lastPath "/product/" then
    let productId := seg2 lastPath
    ["/category/1", "/product/" ++ jsNumSuccStr (jsParseInt productId.data), "/"]
  else if lastPath = "/profile" then
    ["/", "/category/1", "/category/2"]
  else
    ["/", "/category/1", "/profile"]

/-- The Rule-Based Predictor as a standalone component (spec §4.2): empty
list on an empty history, otherwise the table applied to the last path,
truncated to 3.  `getPredictedRoutes` inlines exactly this computation. -/
def ruleBasedPredictor (paths : List String) : List String :=
  match paths.getLast? with
  | none => []
  | some lastPath => (ruleFallbackLast lastPath).take 3

/-- A vocabulary as JavaScript holds it: an object mapping route strings to
integer ids (association list, unique keys when it comes from JSON). -/
abbrev VocabT := List (String × Nat)

/-- Property lookup `obj[key]` on a vocabulary object. -/
def jsGet (o : VocabT) (k : String) : Option Nat :=
  (o.find? (fun e => e.1 == k)).map (·.2)

/-- Embedding of `reverseVocab = Object.fromEntries(Object.entries(vocab).map(([k,v]) => [v,k]))`:
the entry list with key and value swapped (`fromEntries` keeps the last
entry per key, which `jsGetLast` reproduces on lookup). -/
def mkReverseVocab (v : VocabT) : List (Nat × String) :=
  v.map (fun e => (e.2, e.1))

/-- Lookup `reverseVocab[idx]`: the value of the *last* entry with this key,
matching `Object.fromEntries`'s overwrite semantics. -/
def jsGetLast (o : List (Nat × String)) (k : Nat) : Option String :=
  (o.reverse.find? (fun e => e.1 == k)).map (·.2)

/-- Embedding of `pathsToSequence` (`prefetch-service.ts` lines 154–171).  The
`while (sequence.length < 5) sequence.unshift(PAD)` loop is the left-pad
`List.replicate (5 - seq.length) pad ++ seq`. -/
def pathsToSequence (vocab : Option VocabT) (paths : List String) : List Nat :=
  match vocab with
  | none => []
  | some v =>
    let recentPaths := jsSliceLast 5 paths
    let sequence := recentPaths.map
      (fun p => (jsGet v p).getD ((jsGet v "<UNK>").getD 0))
    let pad := (jsGet v "<PAD>").getD 0
    jsSliceLast 5 (List.replicate (5 - sequence.length) pad ++ sequence)

/-- The fixed external environment of one process: whether the TensorFlow
module import succeeds, whether the model artifact loads, and what the
vocabulary fetch yields (`none` covers a failed fetch, a non-ok response
and unusable JSON — all of which leave `vocab`/`reverseVocab` null). -/
structure LoadEnv where
  tfAvailable : Bool
  modelLoads : Bool
  vocabFetch : Option VocabT

/-- The module-level mutable state of `prefetch-service.ts`: `tf`, `model`
(opaque handles, kept as "non-null" flags), `vocab`, `reverseVocab`, and
whether `modelLoadPromise` is non-null (in this sequential model a
non-null promise has already settled). -/
structure SvcState where
  tf : Bool
  model : Bool
  vocab : Option VocabT
  reverseVocab : Option (List (Nat × String))
  loadAttempted : Bool
  deriving Repr, DecidableEq

/-- The fresh state of the module (all variables null). -/
def SvcState.init : SvcState :=
  { tf := false, model := false, vocab := none, reverseVocab := none,
    loadAttempted := false }

/-- The body of the memoized load attempt (`loadModel`'s async closure,
lines 82–143): load TensorFlow, then the model artifact, then the
vocabulary; on each failure the corresponding handles are left null. -/
def applyLoad (env : LoadEnv) (s : SvcState) : SvcState :=
  if !env.tfAvailable then
    { s with tf := false, model := false, vocab := none,
             reverseVocab := none, loadAttempted := true }
  else
    let s1 := { s with tf := true, loadAttempted := true }
    let s2 := if env.modelLoads then { s1 with model := true }
              else { s1 with model := false }
    match env.vocabFetch with
    | some v => { s2 with vocab := some v,
                          reverseVocab := some (mkReverseVocab v) }
    | none => { s2 with vocab := none, reverseVocab := none }

/-- Embedding of `await loadModel()` as one sequential step (lines 73–146): return
immediately when `model && vocab`, await the settled memoized promise when
one exists, otherwise run the single load attempt. -/
def loadModelRun (env : LoadEnv) (s : SvcState) : SvcState :=
  if s.model ∧ s.vocab.isSome then s
  else if s.loadAttempted then s
  else applyLoad env s

/-- Outcome of `model.predict` + `tf.topk`: a runtime error, or the row of
top-k indices (`topIndices[0]`). -/
abbrev InferOracle := Except Unit (List Nat)

/-- Embedding of `predictWithModel` (lines 179–223).  The guard returns `[]` when any of
`model`, `vocab`, `reverseVocab`, `tf` is null; a thrown inference error is
caught and becomes `[]`; the result loop takes at most 3 indices, maps
them through `reverseVocab` and keeps only truthy routes that are neither
`"<PAD>"` nor `"<UNK>"` (an absent entry is `undefined`, falsy; the empty
string is also falsy). -/
def predictWithModel (infer : InferOracle) (s : SvcState) (paths : List String) :
    List String :=
  if !(s.model && s.vocab.isSome && s.reverseVocab.isSome && s.tf) then []
  else if (pathsToSequence s.vocab paths).length ≠ 5 then []
  else
    match infer with
    | .error _ => []
    | .ok topIndices =>
      (topIndices.take 3).filterMap (fun idx =>
        match jsGetLast (s.reverseVocab.getD []) idx with
        | some route =>
          if route ≠ "" ∧ route ≠ "<PAD>" ∧ route ≠ "<UNK>" then some route
          else none
        | none => none)

/-- Embedding of `getPredictedRoutes` (lines 235–291), with the mutable module state
threaded explicitly.  `windowDefined` models `typeof window !== 'undefined'`;
the thrown `Error` is the `.error` value.  The source's local
`modelPredictions` binding (evaluated once, used twice) is written here as
the pure expression `predictWithModel infer (loadModelRun env s) paths`
at both use sites, and the post-`await loadModel()` module state (the
source's mutated globals) is `loadModelRun env s`.  The rule-based
fallback is the inline table followed by `predictions.slice(0, 3)`. -/
def getPredictedRoutes (env : LoadEnv) (infer : InferOracle)
    (windowDefined : Bool) (s : SvcState) (paths : List String) :
    SvcState × Except String (List String) :=
  if windowDefined then
    (s, .error "getPredictedRoutes can only be called on the server side")
  else if paths.isEmpty then
    (s, .ok [])
  else if (loadModelRun env s).model ∧ (loadModelRun env s).vocab.isSome then
    if (predictWithModel infer (loadModelRun env s) paths).length > 0 then
      (loadModelRun env s,
       .ok ((predictWithModel infer (loadModelRun env s) paths).take 3))
    else
      (loadModelRun env s, .ok ((ruleFallbackLast (paths.getLastD "")).take 3))
  else
    (loadModelRun env s, .ok ((ruleFallbackLast (paths.getLastD "")).take 3))

/-! ## Middleware (`middleware.ts`, prediction and history sections) -/

/-- What the middleware attaches to the response, restricted to the parts
the prediction pipeline owns: the `X-Prefetch-Routes` header (as the route
list it serializes; absent when no prediction) and the rewritten
`path-history` cookie (as the route list it serializes). -/
structure MwOut where
  prefetchHeader : Option (List String)
  historyCookie : List String
  deriving Repr, DecidableEq

/-- The `path-history` cookie update (`middleware.ts` lines 118–133):
`JSON.parse` the prior token, push the current path, keep the last 10; a
parse failure (or a token that is not an array, whose `push` throws) falls
into the `catch` and writes `[currentPath]`. -/
def updateHistoryCookie (prior : Except Unit (List String))
    (currentPath : String) : List String :=
  match prior with
  | .ok history => jsSliceLast 10 (history ++ [currentPath])
  | .error _ => [currentPath]

/-- The prediction + history portion of `middleware` (lines 76–133).
`prior` is the outcome of `JSON.parse` on the `path-history` cookie value
(an absent cookie defaults to `'[]'`, i.e. `.ok []`; a malformed token is
`.error ()`).  Prediction runs only when the last-5 slice of the history
has at least 3 entries; any exception in the prediction block is caught
and leaves the predicted list empty.  The header is set only when the
predicted list is non-empty.  The cookie update runs unconditionally. -/
def middleware (env : LoadEnv) (infer : InferOracle) (s : SvcState)
    (prior : Except Unit (List String)) (currentPath : String) :
    SvcState × MwOut :=
  let step :=
    match prior with
    | .error _ => (s, [])
    | .ok history =>
      let recentPaths := jsSliceLast 5 history
      if recentPaths.length ≥ 3 then
        match getPredictedRoutes env infer false s recentPaths with
        | (s₂, .ok routes) => (s₂, routes)
        | (s₂, .error _) => (s₂, [])
      else (s, [])
  let predictedRoutes := step.2
  let header := if predictedRoutes.isEmpty then none else some predictedRoutes
  (step.1,
   { prefetchHeader := header,
     historyCookie := updateHistoryCookie prior currentPath })

/-! ## The at-most-one-loader state machine

`loadModel`'s entry (lines 73–81) runs synchronously up to the assignment
of `modelLoadPromise`: in the cooperative event-loop model there is no
suspension point between the `modelLoadPromise` null-check and the
assignment, so the entry is one atomic step.  The environment's only
interaction is settling the in-flight attempt (the async closure running
to completion), which writes `model`/`vocab` but never resets
`modelLoadPromise` (no assignment of `null` to it exists in the source).
Promise identities are numbered so "the same memoized promise" is
expressible. -/

/-- What a call to `loadModel` returns: an immediate return because
`model && vocab` are already set, or (a promise adopting) the memoized
load promise with the given identity. -/
inductive LoadRet where
  | alreadyLoaded
  | promise (id : Nat)
  deriving Repr, DecidableEq

/-- State of the loader variables: `model`/`vocab` nullness flags, the
identity of `modelLoadPromise` when non-null, how many load attempts have
ever been started, and a fresh-identity counter. -/
structure LoaderState where
  model : Bool
  vocab : Bool
  promiseId : Option Nat
  loadsStarted : Nat
  nextId : Nat
  deriving Repr, DecidableEq

/-- Fresh process: every module variable null, no load ever started. -/
def LoaderState.init : LoaderState :=
  { model := false, vocab := false, promiseId := none,
    loadsStarted := 0, nextId := 0 }

/-- The atomic synchronous entry of `loadModel` (lines 74–82): return if
`model && vocab`; return the memoized promise if one exists; otherwise
start the one load attempt and memoize its promise. -/
def loadModelEntry (s : LoaderState) : LoaderState × LoadRet :=
  if s.model ∧ s.vocab then (s, .alreadyLoaded)
  else
    match s.promiseId with
    | some p => (s, .promise p)
    | none =>
      ({ s with promiseId := some s.nextId,
                loadsStarted := s.loadsStarted + 1,
                nextId := s.nextId + 1 },
       .promise s.nextId)

/-- One event of an interleaving: a task calls `loadModel`, or the
in-flight attempt settles with the given nullness outcome for
`model`/`vocab` (success: both true; failure: both false; partial: model
only).  Settling without an in-flight attempt is a no-op. -/
inductive LEvent where
  | call
  | settle (modelSet vocabSet : Bool)

/-- Effect of one event on the loader state. -/
def lstep (s : LoaderState) : LEvent → LoaderState
  | .call => (loadModelEntry s).1
  | .settle m v =>
    if s.promiseId.isSome then { s with model := m, vocab := v } else s

/-- Run an arbitrary interleaving of calls and settle events. -/
def runTrace (s : LoaderState) (es : List LEvent) : LoaderState :=
  es.foldl lstep s

/-- Invariant of the loader: no promise memoized means no load ever
started, and never more than one load started. -/
def LoaderInv (s : LoaderState) : Prop :=
  (s.promiseId = none → s.loadsStarted = 0) ∧ s.loadsStarted ≤ 1

/-! ## Spec-side definitions used for comparison -/

/-- The Sequence Encoder contract as spec §4.1 states it: take the last
`windowSize` entries, map each through the lookup, then left-pad with the
PAD id until the output has exactly `windowSize` elements. -/
def encodeSpec (lookup : String → Nat) (padId windowSize : Nat)
    (routes : List String) : List Nat :=
  let lastW := routes.drop (routes.length - windowSize)
  let mapped := lastW.map lookup
  List.replicate (windowSize - mapped.length) padId ++ mapped

/-- The spec's `categoryRouteFor(id)` from the policy table, i.e. the route from the spec's policy table. -/
def categoryRouteFor (id : Nat) : String :=
  "/category/" ++ Nat.repr id

/-- The spec's `productRouteFor(id)` from the policy table, i.e. the route from the spec's policy table. -/
def productRouteFor (id : Nat) : String :=
  "/product/" ++ Nat.repr id

/-- The spec's `profileRoute` from the policy table, i.e. the route from the spec's policy table. -/
def profileRoute : String := "/profile"

/-- Well-formedness of the cached reverse vocabulary: it is either absent
or built by `mkReverseVocab` from a vocabulary whose route keys are
distinct (object keys parsed from JSON are unique). -/
def RVocabWF (s : SvcState) : Prop :=
  s.reverseVocab = none ∨
    ∃ v : VocabT, s.reverseVocab = some (mkReverseVocab v) ∧
      (v.map Prod.fst).Nodup

/-- A concrete environment in which the TensorFlow import fails, so the
model stays unavailable (used to instantiate theorems with hypotheses). -/
def envNoTf : LoadEnv :=
  { tfAvailable := false, modelLoads := false, vocabFetch := none }

/-- A concrete environment in which everything loads, with a small
three-entry vocabulary (used to instantiate theorems with hypotheses). -/
def envLoaded : LoadEnv :=
  { tfAvailable := true, modelLoads := true,
    vocabFetch := some [("/", 2), ("<PAD>", 0), ("<UNK>", 1)] }

end Prefetch

namespace Prefetch

/-! ## Helper lemmas -/

theorem length_jsSliceLast (k : Nat) (l : List α) :
    (jsSliceLast k l).length = min k l.length := by
  simp [jsSliceLast]
  omega

theorem jsSliceLast_of_length_le {k : Nat} {l : List α} (h : l.length ≤ k) :
    jsSliceLast k l = l := by
  simp [jsSliceLast, Nat.sub_eq_zero_of_le h]

theorem pathsToSequence_some (v : VocabT) (paths : List String) :
    pathsToSequence (some v) paths =
      List.replicate (5 - (jsSliceLast 5 paths).length) ((jsGet v "<PAD>").getD 0)
        ++ (jsSliceLast 5 paths).map
            (fun p => (jsGet v p).getD ((jsGet v "<UNK>").getD 0)) := by
  show jsSliceLast 5 _ = _
  simp only [List.length_map]
  apply jsSliceLast_of_length_le
  simp [length_jsSliceLast]

theorem length_pathsToSequence_some (v : VocabT) (paths : List String) :
    (pathsToSequence (some v) paths).length = 5 := by
  rw [pathsToSequence_some]
  simp [length_jsSliceLast]

/-- C9: an empty path list returns `[]` immediately with the entire
module state (memoized promise, model handle, vocabulary) unchanged:
no load attempt is triggered. -/
theorem getPredictedRoutes_empty_frame (env : LoadEnv) (infer : InferOracle)
    (s : SvcState) :
    getPredictedRoutes env infer false s [] = (s, .ok []) := rfl

/-- C10: with a global `window` object defined, `getPredictedRoutes`
throws (returns the error) on every input; with `window` undefined it
never throws — every evaluation yields an ok route list. -/
theorem getPredictedRoutes_window_guard (env : LoadEnv) (infer : InferOracle)
    (s : SvcState) (paths : List String) :
    (getPredictedRoutes env infer true s paths).2 =
        .error "getPredictedRoutes can only be called on the server side" ∧
      ∃ routes, (getPredictedRoutes env infer false s paths).2 = .ok routes := by
  refine ⟨rfl, ?_⟩
  unfold getPredictedRoutes
  by_cases h : paths.isEmpty <;> simp [h]
  split
  · split <;> simp
  · simp

/-- C7: for every vocabulary and every list of route strings of any
length, `pathsToSequence` returns exactly 5 integers, and it is exactly
the spec's encoder: the last 5 entries mapped to their vocabulary id (or
the UNKNOWN id when absent), left-padded with the PAD id to length 5. -/
theorem pathsToSequence_encodes_window (v : VocabT) (paths : List String) :
    (pathsToSequence (some v) paths).length = 5 ∧
    pathsToSequence (some v) paths =
      encodeSpec (fun p => (jsGet v p).getD ((jsGet v "<UNK>").getD 0))
        ((jsGet v "<PAD>").getD 0) 5 paths := by
  refine ⟨length_pathsToSequence_some v paths, ?_⟩
  rw [pathsToSequence_some]
  unfold encodeSpec
  simp [jsSliceLast]

/-- C8: the embedded `predictWithModel` returns `[]` whenever its preconditions (model
handle, vocabulary, reverse vocabulary and inference runtime all
non-null) do not hold, and returns `[]` whenever the inference runtime
raises an error: no error ever propagates to the caller. -/
theorem predictWithModel_error_containment (infer : InferOracle)
    (s : SvcState) (paths : List String) :
    (¬(s.model = true ∧ s.vocab.isSome = true ∧ s.reverseVocab.isSome = true
        ∧ s.tf = true) → predictWithModel infer s paths = []) ∧
    (∀ e : Unit, infer = .error e → predictWithModel infer s paths = []) := by
  constructor
  · intro h
    have hg : (s.model && s.vocab.isSome && s.reverseVocab.isSome && s.tf) = false := by
      rw [Bool.eq_false_iff]
      simp only [ne_eq, Bool.and_eq_true]
      tauto
    unfold predictWithModel
    rw [if_pos (by simp [hg])]
  · intro e he
    subst he
    unfold predictWithModel
    by_cases hg : (s.model && s.vocab.isSome && s.reverseVocab.isSome && s.tf) = true
    · rw [if_neg (by simp [hg])]
      simp
    · have hg' : (s.model && s.vocab.isSome && s.reverseVocab.isSome && s.tf) = false :=
        Bool.eq_false_iff.mpr hg
      rw [if_pos (by simp [hg'])]

/-- C5: the visit-log update appends the current route to a parsed prior
log and keeps the most recent 10 entries in order (length `min (n+1) 10`,
hence at most 10); an absent token (defaulting to `[]`) or a malformed
token yields exactly `[currentRoute]`; and the middleware performs this
update on every request, whatever the prediction environment, oracle and
model state produced. -/
theorem history_update_append_truncate (h : List String) (cur : String) :
    updateHistoryCookie (.ok h) cur = (h ++ [cur]).drop ((h.length + 1) - 10) ∧
    (updateHistoryCookie (.ok h) cur).length = min (h.length + 1) 10 ∧
    (updateHistoryCookie (.ok h) cur).length ≤ 10 ∧
    updateHistoryCookie (.error ()) cur = [cur] ∧
    updateHistoryCookie (.ok []) cur = [cur] ∧
    (∀ (env : LoadEnv) (infer : InferOracle) (s : SvcState)
        (prior : Except Unit (List String)),
      (middleware env infer s prior cur).2.historyCookie =
        updateHistoryCookie prior cur) := by
  refine ⟨?_, ?_, ?_, rfl, rfl, fun env infer s prior => rfl⟩
  · simp [updateHistoryCookie, jsSliceLast]
  · simp [updateHistoryCookie, jsSliceLast]
    omega
  · simp [updateHistoryCookie, jsSliceLast]
    omega

theorem applyLoad_loadAttempted (env : LoadEnv) (s : SvcState) :
    (applyLoad env s).loadAttempted = true := by
  unfold applyLoad
  split
  · rfl
  · split <;> split <;> rfl

theorem loadModelRun_ready_or_attempted (env : LoadEnv) (s : SvcState) :
    ((loadModelRun env s).model = true ∧ (loadModelRun env s).vocab.isSome = true)
      ∨ (loadModelRun env s).loadAttempted = true := by
  unfold loadModelRun
  split
  · next h => exact Or.inl h
  · split
    · next h => exact Or.inr h
    · exact Or.inr (applyLoad_loadAttempted env s)

theorem loadModelRun_idem (env : LoadEnv) (s : SvcState) :
    loadModelRun env (loadModelRun env s) = loadModelRun env s := by
  have h2 := loadModelRun_ready_or_attempted env s
  set t := loadModelRun env s with ht
  unfold loadModelRun
  rcases h2 with h | h
  · rw [if_pos h]
  · simp [h]

theorem ruleBasedPredictor_of_ne_nil (paths : List String) (hne : paths ≠ []) :
    ruleBasedPredictor paths = (ruleFallbackLast (paths.getLastD "")).take 3 := by
  unfold ruleBasedPredictor
  obtain ⟨y, hy⟩ := Option.isSome_iff_exists.mp (List.getLast?_isSome.mpr hne)
  rw [List.getLastD_eq_getLast?, hy]
  rfl

theorem getPredictedRoutes_unavailable (env : LoadEnv) (infer : InferOracle)
    (s : SvcState) (paths : List String) (hne : paths ≠ [])
    (hun : (loadModelRun env s).model = false ∨ (loadModelRun env s).vocab = none) :
    getPredictedRoutes env infer false s paths =
      (loadModelRun env s, .ok ((ruleFallbackLast (paths.getLastD "")).take 3)) := by
  unfold getPredictedRoutes
  rw [if_neg (by simp)]
  rw [if_neg (by simp [List.isEmpty_iff, hne])]
  rw [if_neg]
  rcases hun with h | h <;> simp [h]

/-- C1: whenever the model handle or the vocabulary is null once the load
attempt has settled, `getPredictedRoutes` on a non-empty history returns
exactly the Rule-Based Predictor's output for that history truncated to 3,
and a repeated call from the resulting state returns the same result. -/
theorem getPredictedRoutes_unavailable_matches_rule_based (env : LoadEnv)
    (infer : InferOracle) (s : SvcState) (paths : List String)
    (hne : paths ≠ [])
    (hun : (loadModelRun env s).model = false ∨ (loadModelRun env s).vocab = none) :
    getPredictedRoutes env infer false s paths =
      (loadModelRun env s, .ok ((ruleBasedPredictor paths).take 3)) ∧
    getPredictedRoutes env infer false (loadModelRun env s) paths =
      (loadModelRun env s, .ok ((ruleBasedPredictor paths).take 3)) := by
  have hrb : (ruleBasedPredictor paths).take 3 =
      (ruleFallbackLast (paths.getLastD "")).take 3 := by
    rw [ruleBasedPredictor_of_ne_nil paths hne, List.take_take]
    norm_num
  have hun' : (loadModelRun env (loadModelRun env s)).model = false ∨
      (loadModelRun env (loadModelRun env s)).vocab = none := by
    rw [loadModelRun_idem]; exact hun
  constructor
  · rw [getPredictedRoutes_unavailable env infer s paths hne hun, hrb]
  · rw [getPredictedRoutes_unavailable env infer (loadModelRun env s) paths hne hun',
      hrb, loadModelRun_idem]

/-- Witness for C1 at a concrete input: TensorFlow unavailable, history
`["/"]`; both the first and a repeated call return the rule-based output. -/
theorem getPredictedRoutes_unavailable_matches_rule_based_witness :
    getPredictedRoutes envNoTf (.error ()) false SvcState.init ["/"] =
      (loadModelRun envNoTf SvcState.init,
        .ok ((ruleBasedPredictor ["/"]).take 3)) ∧
    getPredictedRoutes envNoTf (.error ()) false
        (loadModelRun envNoTf SvcState.init) ["/"] =
      (loadModelRun envNoTf SvcState.init,
        .ok ((ruleBasedPredictor ["/"]).take 3)) :=
  getPredictedRoutes_unavailable_matches_rule_based envNoTf (.error ())
    SvcState.init ["/"] (by decide) (Or.inl (by decide))

/-- Witness for C8 at a concrete input: a state with the model missing
yields `[]`, and a raised inference error yields `[]`. -/
theorem predictWithModel_error_containment_witness :
    predictWithModel (.error ()) SvcState.init ["/"] = [] ∧
    predictWithModel (.error ())
      { tf := true, model := true,
        vocab := some [("/", 2), ("<PAD>", 0), ("<UNK>", 1)],
        reverseVocab := some (mkReverseVocab [("/", 2), ("<PAD>", 0), ("<UNK>", 1)]),
        loadAttempted := true } ["/"] = [] :=
  ⟨(predictWithModel_error_containment (.error ()) SvcState.init ["/"]).1
      (by decide),
   (predictWithModel_error_containment (.error ())
      { tf := true, model := true,
        vocab := some [("/", 2), ("<PAD>", 0), ("<UNK>", 1)],
        reverseVocab := some (mkReverseVocab [("/", 2), ("<PAD>", 0), ("<UNK>", 1)]),
        loadAttempted := true } ["/"]).2 () rfl⟩

theorem lstep_inv {s : LoaderState} (e : LEvent) (h : LoaderInv s) :
    LoaderInv (lstep s e) := by
  obtain ⟨h0, h1⟩ := h
  cases e with
  | call =>
    show LoaderInv (loadModelEntry s).1
    unfold loadModelEntry
    by_cases hmv : s.model = true ∧ s.vocab = true
    · rw [if_pos hmv]
      exact ⟨h0, h1⟩
    · rw [if_neg hmv]
      cases hp : s.promiseId with
      | some p => exact ⟨h0, h1⟩
      | none =>
        refine ⟨fun hq => ?_, ?_⟩
        · simp at hq
        · show s.loadsStarted + 1 ≤ 1
          have := h0 hp
          omega
  | settle m v =>
    show LoaderInv
      (if s.promiseId.isSome then { s with model := m, vocab := v } else s)
    by_cases hp : s.promiseId.isSome = true
    · rw [if_pos hp]
      exact ⟨h0, h1⟩
    · rw [if_neg hp]
      exact ⟨h0, h1⟩

theorem runTrace_inv (es : List LEvent) {s : LoaderState} (h : LoaderInv s) :
    LoaderInv (runTrace s es) := by
  induction es generalizing s with
  | nil => exact h
  | cons e es ih => exact ih (lstep_inv e h)

theorem promiseId_persists {s : LoaderState} {p : Nat} (e : LEvent)
    (h : s.promiseId = some p) : (lstep s e).promiseId = some p := by
  cases e with
  | call =>
    show (loadModelEntry s).1.promiseId = some p
    unfold loadModelEntry
    by_cases hmv : s.model = true ∧ s.vocab = true
    · rw [if_pos hmv]
      exact h
    · rw [if_neg hmv]
      simp [h]
  | settle m v =>
    show (if s.promiseId.isSome then
        { s with model := m, vocab := v } else s).promiseId = some p
    by_cases hp : s.promiseId.isSome = true
    · rw [if_pos hp]
      exact h
    · rw [if_neg hp]
      exact h

theorem promiseId_persists_trace {s : LoaderState} {p : Nat}
    (es : List LEvent) (h : s.promiseId = some p) :
    (runTrace s es).promiseId = some p := by
  induction es generalizing s with
  | nil => exact h
  | cons e es ih => exact ih (promiseId_persists e h)

/-- C2: under every interleaving of calls to `loadModel` and settle steps
of the in-flight attempt, at most one load is ever started; and once a
load attempt has begun (a promise is memoized), every later call leaves
the state untouched (never starts a second load), returns the same
memoized promise whenever `model && vocab` is not fully set — in
particular for the whole process lifetime after a failed load — and the
memoized promise survives every further interleaving. -/
theorem loadModel_at_most_one_load (es : List LEvent) :
    (runTrace LoaderState.init es).loadsStarted ≤ 1 ∧
    ∀ p : Nat, (runTrace LoaderState.init es).promiseId = some p →
      (loadModelEntry (runTrace LoaderState.init es)).1 =
          runTrace LoaderState.init es ∧
      (¬((runTrace LoaderState.init es).model = true ∧
          (runTrace LoaderState.init es).vocab = true) →
        (loadModelEntry (runTrace LoaderState.init es)).2 = .promise p) ∧
      ∀ es' : List LEvent,
        (runTrace (runTrace LoaderState.init es) es').promiseId = some p := by
  have hinv : LoaderInv (runTrace LoaderState.init es) :=
    runTrace_inv es ⟨fun _ => rfl, by simp [LoaderState.init]⟩
  refine ⟨hinv.2, fun p hp => ⟨?_, ?_, fun es' => promiseId_persists_trace es' hp⟩⟩
  · unfold loadModelEntry
    split
    · rfl
    · rw [hp]
  · intro hnready
    unfold loadModelEntry
    rw [if_neg hnready, hp]

/-- Witness for C2: after one concrete call, a promise with identity 0 is
memoized; a second call changes nothing, returns that same promise, and
it persists across a further failed settle. -/
theorem loadModel_at_most_one_load_witness :
    (runTrace LoaderState.init [.call]).loadsStarted ≤ 1 ∧
    (loadModelEntry (runTrace LoaderState.init [.call])).1 =
        runTrace LoaderState.init [.call] ∧
    (loadModelEntry (runTrace LoaderState.init [.call])).2 = .promise 0 ∧
    (runTrace (runTrace LoaderState.init [.call])
        [.settle false false]).promiseId = some 0 := by
  obtain ⟨h1, h2⟩ := loadModel_at_most_one_load [.call]
  obtain ⟨ha, hb, hc⟩ := h2 0 (by decide)
  exact ⟨h1, ha, hb (by decide), hc [.settle false false]⟩

/-- C3 counterexample: a request whose visit-log token decodes to the
history `["/"]`, with the model unavailable (TensorFlow import fails and
nothing is loaded), gets NO predicted-routes list attached by the
middleware — the history has fewer than 3 entries, so prediction is never
invoked — refuting the claimed attached list
`["/category/1", "/category/2", "/profile"]`. -/
theorem middleware_scenarioA_header_absent :
    (middleware envNoTf (.error ()) SvcState.init (.ok ["/"]) "/").2.prefetchHeader
        = none ∧
    (middleware envNoTf (.error ()) SvcState.init (.ok ["/"]) "/").2.prefetchHeader
        ≠ some ["/category/1", "/category/2", "/profile"] := by
  constructor
  · rfl
  · decide

/-- C3 amended: through the middleware, a token decoding to `["/"]` yields
no predicted-routes header (prediction only runs for recent histories of
length ≥ 3), while a direct `getPredictedRoutes` call on `["/"]` with the
model unavailable does return
`[categoryRouteFor 1, categoryRouteFor 2, profileRoute]`. -/
theorem middleware_scenarioA_amended (env : LoadEnv) (infer : InferOracle)
    (s : SvcState) (cur : String)
    (hun : (loadModelRun env s).model = false ∨ (loadModelRun env s).vocab = none) :
    (middleware env infer s (.ok ["/"]) cur).2.prefetchHeader = none ∧
    (getPredictedRoutes env infer false s ["/"]).2 =
      .ok [categoryRouteFor 1, categoryRouteFor 2, profileRoute] := by
  constructor
  · rfl
  · rw [getPredictedRoutes_unavailable env infer s ["/"] (by decide) hun]
    rfl

/-- Witness for the amended C3 at a concrete unavailable environment. -/
theorem middleware_scenarioA_amended_witness :
    (middleware envNoTf (.error ()) SvcState.init (.ok ["/"]) "/").2.prefetchHeader
        = none ∧
    (getPredictedRoutes envNoTf (.error ()) false SvcState.init ["/"]).2 =
      .ok [categoryRouteFor 1, categoryRouteFor 2, profileRoute] :=
  middleware_scenarioA_amended envNoTf (.error ()) SvcState.init "/"
    (Or.inl (by decide))


theorem splitSlash_ne_nil (l : List Char) : splitSlash l ≠ [] := by
  cases l with
  | nil => simp [splitSlash]
  | cons c cs =>
    unfold splitSlash
    split
    · simp
    · split <;> simp

theorem splitSlash_head (l : List Char) :
    (splitSlash l).getD 0 [] = l.takeWhile (fun c => c != '/') := by
  induction l with
  | nil => rfl
  | cons c cs ih =>
    unfold splitSlash
    by_cases hc : c = '/'
    · rw [if_pos hc]
      subst hc
      simp [List.takeWhile]
    · rw [if_neg hc]
      cases hsp : splitSlash cs with
      | nil => exact absurd hsp (splitSlash_ne_nil cs)
      | cons t ts =>
        rw [hsp] at ih
        simp only [List.getD, List.get?] at ih ⊢
        have hb : (c != '/') = true := by simp [hc]
        simp only [Option.getD_some] at ih
        simp [List.takeWhile, hb, ih]

theorem takeWhile_append_all {p : Char → Bool} {ds : List Char}
    (h : ∀ c ∈ ds, p c = true) (rest : List Char) :
    (ds ++ rest).takeWhile p = ds ++ rest.takeWhile p := by
  induction ds with
  | nil => rfl
  | cons c cs ih =>
    have hc : p c = true := h c (by simp)
    simp only [List.cons_append, List.takeWhile, hc, List.append_eq]
    rw [ih (fun x hx => h x (by simp [hx]))]

theorem takeWhile_eq_self_of_all {p : Char → Bool} {ds : List Char}
    (h : ∀ c ∈ ds, p c = true) : ds.takeWhile p = ds := by
  have := takeWhile_append_all h []
  simpa using this

theorem digit_ne_slash {c : Char} (h : c.isDigit = true) : (c != '/') = true := by
  rw [bne_iff_ne]
  intro he
  subst he
  simp at h

theorem seg2_product (tail : List Char) :
    seg2 (String.mk ('/' :: 'p' :: 'r' :: 'o' :: 'd' :: 'u' :: 'c' :: 't' :: '/' :: tail)) =
      String.mk (tail.takeWhile (fun c => c != '/')) := by
  unfold seg2
  have hsp : splitSlash ('/' :: 'p' :: 'r' :: 'o' :: 'd' :: 'u' :: 'c' :: 't' :: '/' :: tail) =
      [] :: ['p', 'r', 'o', 'd', 'u', 'c', 't'] :: splitSlash tail := rfl
  rw [hsp]
  show String.mk ((splitSlash tail).getD 0 []) = _
  rw [splitSlash_head]

theorem jsParseInt_digits_leading {ds rest : List Char} (hds : ds ≠ [])
    (hdig : ∀ c ∈ ds, c.isDigit = true)
    (hrest : ∀ c, rest.head? = some c → c.isDigit = false)
    (hnohex : ds = ['0'] → ∀ c, rest.head? = some c → c ≠ 'x' ∧ c ≠ 'X') :
    jsParseInt ((ds ++ rest).takeWhile (fun c => c != '/')) = some (digitsVal ds) := by
  have h1 : (ds ++ rest).takeWhile (fun c => c != '/') =
      ds ++ rest.takeWhile (fun c => c != '/') :=
    takeWhile_append_all (fun c hc => digit_ne_slash (hdig c hc)) rest
  have hhead : ∀ c1 r', rest.takeWhile (fun c => c != '/') = c1 :: r' →
      rest.head? = some c1 := by
    intro c1 r' hr
    cases rest with
    | nil => simp [List.takeWhile] at hr
    | cons d rs =>
      by_cases hd : (d != '/') = true
      · simp [List.takeWhile, hd] at hr
        exact congrArg some hr.1
      · have hd2 : (d != '/') = false := Bool.eq_false_iff.mpr hd
        simp [List.takeWhile, hd2] at hr
  have hhex : jsIsHexPrefixed (ds ++ rest.takeWhile (fun c => c != '/')) = false := by
    cases ds with
    | nil => exact absurd rfl hds
    | cons c0 ds1 =>
      cases ds1 with
      | cons c1 ds2 =>
        have hc1 : c1.isDigit = true := hdig c1 (by simp)
        show (c0 == '0' && (c1 == 'x' || c1 == 'X')) = false
        have hx : (c1 == 'x') = false := by
          rw [beq_eq_false_iff_ne]
          intro he
          subst he
          exact absurd hc1 (by decide)
        have hX : (c1 == 'X') = false := by
          rw [beq_eq_false_iff_ne]
          intro he
          subst he
          exact absurd hc1 (by decide)
        simp [hx, hX]
      | nil =>
        cases hr : rest.takeWhile (fun c => c != '/') with
        | nil => rfl
        | cons c1 r' =>
          show (c0 == '0' && (c1 == 'x' || c1 == 'X')) = false
          by_cases h0 : c0 = '0'
          · subst h0
            have hcc := hnohex rfl c1 (hhead c1 r' hr)
            have hx : (c1 == 'x') = false := by
              rw [beq_eq_false_iff_ne]
              exact hcc.1
            have hX : (c1 == 'X') = false := by
              rw [beq_eq_false_iff_ne]
              exact hcc.2
            simp [hx, hX]
          · have h0b : (c0 == '0') = false := by
              rw [beq_eq_false_iff_ne]
              exact h0
            simp [h0b]
  have h2 : (rest.takeWhile (fun c => c != '/')).takeWhile Char.isDigit = [] := by
    cases rest with
    | nil => rfl
    | cons c cs =>
      have hc : c.isDigit = false := hrest c rfl
      by_cases hslash : (c != '/') = true
      · simp [List.takeWhile, hslash, hc]
      · simp only [Bool.not_eq_true] at hslash
        simp [List.takeWhile, hslash]
  have h3 : (ds ++ rest.takeWhile (fun c => c != '/')).takeWhile Char.isDigit = ds := by
    rw [takeWhile_append_all hdig, h2, List.append_nil]
  unfold jsParseInt
  rw [h1]
  rw [if_neg (by simp [hhex])]
  rw [h3]
  simp [hds]


theorem ruleFallbackLast_product (tail : List Char) :
    ruleFallbackLast
        (String.mk ('/' :: 'p' :: 'r' :: 'o' :: 'd' :: 'u' :: 'c' :: 't' :: '/' :: tail)) =
      ["/category/1",
       "/product/" ++ jsNumSuccStr (jsParseInt (tail.takeWhile (fun c => c != '/'))),
       "/"] := by
  unfold ruleFallbackLast
  rw [if_neg (by simp [String.ext_iff]),
      if_neg (by simp [jsStartsWith, List.isPrefixOf]),
      if_pos (by simp [jsStartsWith, List.isPrefixOf]),
      seg2_product]


/-- C4 as amended: for every history whose last entry is "/product/"
followed by a nonempty run of decimal digits (the id), optionally
followed by further non-digit characters — excluding the shape where the
digit run is exactly "0" followed by 'x' or 'X', which `parseInt` reads
as a hexadecimal radix prefix, and with the id below `2 ^ 53`, the range
in which JavaScript's float64 increment and plain decimal rendering
agree with the exact successor — both the rule-based fallback reached
through `getPredictedRoutes` with the model unavailable and the
standalone Rule-Based Predictor return exactly
`[categoryRouteFor 1, productRouteFor (id+1), "/"]`. -/
theorem rule_fallback_product_route (env : LoadEnv) (infer : InferOracle)
    (s : SvcState) (pre : List String) (ds rest : List Char)
    (hun : (loadModelRun env s).model = false ∨ (loadModelRun env s).vocab = none)
    (hds : ds ≠ []) (hdig : ∀ c ∈ ds, c.isDigit = true)
    (hrest : ∀ c, rest.head? = some c → c.isDigit = false)
    (hnohex : ds = ['0'] → ∀ c, rest.head? = some c → c ≠ 'x' ∧ c ≠ 'X')
    (hbound : digitsVal ds < 2 ^ 53) :
    (getPredictedRoutes env infer false s
        (pre ++ [String.mk ("/product/".data ++ (ds ++ rest))])).2 =
      .ok [categoryRouteFor 1, productRouteFor (digitsVal ds + 1), "/"] ∧
    ruleBasedPredictor (pre ++ [String.mk ("/product/".data ++ (ds ++ rest))]) =
      [categoryRouteFor 1, productRouteFor (digitsVal ds + 1), "/"] := by
  have hne : pre ++ [String.mk ("/product/".data ++ (ds ++ rest))] ≠ [] := by simp
  have hlast : (pre ++ [String.mk ("/product/".data ++ (ds ++ rest))]).getLastD "" =
      String.mk ("/product/".data ++ (ds ++ rest)) := by
    rw [List.getLastD_eq_getLast?, List.getLast?_concat]
    rfl
  have hfb : ruleFallbackLast (String.mk ("/product/".data ++ (ds ++ rest))) =
      [categoryRouteFor 1, productRouteFor (digitsVal ds + 1), "/"] := by
    have he : String.mk ("/product/".data ++ (ds ++ rest)) =
        String.mk ('/' :: 'p' :: 'r' :: 'o' :: 'd' :: 'u' :: 'c' :: 't' :: '/' :: (ds ++ rest)) := rfl
    rw [he, ruleFallbackLast_product, jsParseInt_digits_leading hds hdig hrest hnohex]
    rfl
  constructor
  · rw [getPredictedRoutes_unavailable env infer s _ hne hun]
    show Except.ok ((ruleFallbackLast
        ((pre ++ [String.mk ("/product/".data ++ (ds ++ rest))]).getLastD "")).take 3) = _
    rw [hlast, hfb]
    rfl
  · rw [ruleBasedPredictor_of_ne_nil _ hne, hlast, hfb]
    rfl

/-- Witness for C4: history `["/product/7"]` with the model unavailable
yields `["/category/1", "/product/8", "/"]`. -/
theorem rule_fallback_product_route_witness :
    (getPredictedRoutes envNoTf (.error ()) false SvcState.init ["/product/7"]).2 =
      .ok ["/category/1", "/product/8", "/"] ∧
    ruleBasedPredictor ["/product/7"] = ["/category/1", "/product/8", "/"] :=
  rule_fallback_product_route envNoTf (.error ()) SvcState.init [] ['7'] []
    (Or.inl (by decide)) (by decide) (by decide) (fun c hc => by simp at hc)
    (fun h => absurd h (by decide)) (by decide)

/-- C4 counterexample: the history `["/product/0x10"]` lies inside the
original claim's scope — its last entry starts with "/product/" followed
by the decimal id 0 — yet with the model unavailable the code returns
`["/category/1", "/product/17", "/"]`, because `parseInt` auto-detects
the `0x` prefix and parses `"0x10"` as hexadecimal 16; the claimed
output `[categoryRouteFor 1, productRouteFor (0+1), "/"]` is refuted. -/
theorem rule_fallback_product_route_hex_counterexample :
    (getPredictedRoutes envNoTf (.error ()) false SvcState.init
        ["/product/0x10"]).2 = .ok ["/category/1", "/product/17", "/"] ∧
    (getPredictedRoutes envNoTf (.error ()) false SvcState.init
        ["/product/0x10"]).2 ≠
      .ok [categoryRouteFor 1, productRouteFor (digitsVal ['0'] + 1), "/"] := by
  constructor
  · rfl
  · intro hcontra
    have h1 : (getPredictedRoutes envNoTf (Except.error ()) false SvcState.init
        ["/product/0x10"]).2 = .ok ["/category/1", "/product/17", "/"] := rfl
    rw [h1] at hcontra
    exact absurd (Except.ok.inj hcontra) (by decide)

theorem key_unique {v : VocabT} (hnd : (v.map Prod.fst).Nodup)
    {r : String} {i j : Nat} (hi : (r, i) ∈ v) (hj : (r, j) ∈ v) : i = j := by
  induction v with
  | nil => simp at hi
  | cons e es ih =>
    simp only [List.map_cons, List.nodup_cons] at hnd
    rcases List.mem_cons.mp hi with hi1 | hi1 <;>
      rcases List.mem_cons.mp hj with hj1 | hj1
    · have : (r, i) = (r, j) := hi1.trans hj1.symm
      exact (Prod.mk.injEq _ _ _ _).mp this |>.2
    · exfalso
      apply hnd.1
      rw [← hi1]
      exact List.mem_map.mpr ⟨(r, j), hj1, rfl⟩
    · exfalso
      apply hnd.1
      rw [← hj1]
      exact List.mem_map.mpr ⟨(r, i), hi1, rfl⟩
    · exact ih hnd.2 hi1 hj1

theorem jsGetLast_mem {v : VocabT} {i : Nat} {r : String}
    (h : jsGetLast (mkReverseVocab v) i = some r) : (r, i) ∈ v := by
  unfold jsGetLast at h
  cases hf : (mkReverseVocab v).reverse.find? (fun e => e.1 == i) with
  | none => rw [hf] at h; simp at h
  | some e =>
    rw [hf] at h
    have h2 : e.2 = r := Option.some.inj h
    have hm : e ∈ (mkReverseVocab v).reverse := List.mem_of_find?_eq_some hf
    have hp := List.find?_some hf
    have h1 : e.1 = i := by simpa [beq_iff_eq] using hp
    rw [List.mem_reverse] at hm
    unfold mkReverseVocab at hm
    obtain ⟨x, hx, he⟩ := List.mem_map.mp hm
    have hx1 : x.1 = r := by rw [← h2, ← he]
    have hx2 : x.2 = i := by rw [← h1, ← he]
    have : x = (r, i) := Prod.ext hx1 hx2
    rw [← this]
    exact hx

theorem jsGetLast_inj {v : VocabT} (hnd : (v.map Prod.fst).Nodup)
    {i j : Nat} {r : String} (hi : jsGetLast (mkReverseVocab v) i = some r)
    (hj : jsGetLast (mkReverseVocab v) j = some r) : i = j :=
  key_unique hnd (jsGetLast_mem hi) (jsGetLast_mem hj)

theorem string_append_ne (a x b : String) (k : Nat) (hk : k ≤ a.data.length)
    (h : a.data.take k ≠ b.data.take k) : a ++ x ≠ b := by
  intro he
  apply h
  have hd : (a ++ x).data = b.data := congrArg String.data he
  rw [String.data_append] at hd
  calc a.data.take k = (a.data ++ x.data).take k := by
        rw [List.take_append_eq_append_take, Nat.sub_eq_zero_of_le hk,
          List.take_zero, List.append_nil]
    _ = b.data.take k := by rw [hd]


theorem ruleFallbackLast_wf (lastPath : String) :
    (ruleFallbackLast lastPath).length = 3 ∧ (ruleFallbackLast lastPath).Nodup ∧
    "<PAD>" ∉ ruleFallbackLast lastPath ∧ "<UNK>" ∉ ruleFallbackLast lastPath := by
  unfold ruleFallbackLast
  split
  · exact ⟨rfl, by decide, by decide, by decide⟩
  · split
    · refine ⟨rfl, ?_, ?_, ?_⟩
      · refine List.nodup_cons.mpr ⟨?_, by decide⟩
        intro hmem
        rcases List.mem_cons.mp hmem with h1 | h1
        · exact string_append_ne "/category/" _ "/product/1" 2 (by decide) (by decide) h1
        · rcases List.mem_cons.mp h1 with h2 | h2
          · exact string_append_ne "/category/" _ "/product/2" 2 (by decide) (by decide) h2
          · simp at h2
      · intro hmem
        rcases List.mem_cons.mp hmem with h1 | h1
        · exact string_append_ne "/category/" _ "<PAD>" 1 (by decide) (by decide) h1.symm
        · simp at h1
      · intro hmem
        rcases List.mem_cons.mp hmem with h1 | h1
        · exact string_append_ne "/category/" _ "<UNK>" 1 (by decide) (by decide) h1.symm
        · simp at h1
    · split
      · refine ⟨rfl, ?_, ?_, ?_⟩
        · refine List.nodup_cons.mpr ⟨?_, ?_⟩
          · intro hmem
            rcases List.mem_cons.mp hmem with h1 | h1
            · exact string_append_ne "/product/" _ "/category/1" 2 (by decide) (by decide) h1.symm
            · rcases List.mem_cons.mp h1 with h2 | h2
              · exact absurd h2 (by decide)
              · simp at h2
          · refine List.nodup_cons.mpr ⟨?_, by decide⟩
            intro hmem
            rcases List.mem_cons.mp hmem with h1 | h1
            · exact string_append_ne "/product/" _ "/" 2 (by decide) (by decide) h1
            · simp at h1
        · intro hmem
          rcases List.mem_cons.mp hmem with h1 | h1
          · simp at h1
          · rcases List.mem_cons.mp h1 with h2 | h2
            · exact string_append_ne "/product/" _ "<PAD>" 1 (by decide) (by decide) h2.symm
            · simp at h2
        · intro hmem
          rcases List.mem_cons.mp hmem with h1 | h1
          · simp at h1
          · rcases List.mem_cons.mp h1 with h2 | h2
            · exact string_append_ne "/product/" _ "<UNK>" 1 (by decide) (by decide) h2.symm
            · simp at h2
      · split
        · exact ⟨rfl, by decide, by decide, by decide⟩
        · exact ⟨rfl, by decide, by decide, by decide⟩


theorem predictWithModel_guard_false (infer : InferOracle) (s : SvcState)
    (paths : List String)
    (hg : (s.model && s.vocab.isSome && s.reverseVocab.isSome && s.tf) = false) :
    predictWithModel infer s paths = [] := by
  unfold predictWithModel
  rw [if_pos (by simp [hg])]

theorem predictWithModel_error (e : Unit) (s : SvcState) (paths : List String) :
    predictWithModel (.error e) s paths = [] := by
  unfold predictWithModel
  by_cases hg : (s.model && s.vocab.isSome && s.reverseVocab.isSome && s.tf) = true
  · rw [if_neg (by simp [hg])]
    split <;> simp_all
  · rw [if_pos (by simp [Bool.eq_false_iff.mpr hg])]

theorem predictWithModel_wf (infer : InferOracle) (s : SvcState)
    (paths : List String) (hrv : RVocabWF s)
    (hidx : ∀ l, infer = .ok l → l.Nodup) :
    (predictWithModel infer s paths).length ≤ 3 ∧
    (predictWithModel infer s paths).Nodup ∧
    "<PAD>" ∉ predictWithModel infer s paths ∧
    "<UNK>" ∉ predictWithModel infer s paths := by
  cases hinf : infer with
  | error e =>
    rw [predictWithModel_error e s paths]
    exact ⟨by simp, by simp, by simp, by simp⟩
  | ok topIndices =>
    by_cases hg : (s.model && s.vocab.isSome && s.reverseVocab.isSome && s.tf) = true
    · have hrvs : s.reverseVocab.isSome = true := by
        simp only [Bool.and_eq_true] at hg
        exact hg.1.2
      obtain ⟨v, hv, hnd⟩ : ∃ v, s.reverseVocab = some (mkReverseVocab v) ∧
          (v.map Prod.fst).Nodup := by
        rcases hrv with h | ⟨v, hv, hnd⟩
        · rw [h] at hrvs; simp at hrvs
        · exact ⟨v, hv, hnd⟩
      have hf_some : ∀ (a : Nat) (b : String),
          (match jsGetLast (s.reverseVocab.getD []) a with
            | some route =>
              if route ≠ "" ∧ route ≠ "<PAD>" ∧ route ≠ "<UNK>" then some route
              else none
            | none => none) = some b →
          jsGetLast (mkReverseVocab v) a = some b ∧ b ≠ "<PAD>" ∧ b ≠ "<UNK>" := by
        intro a b hab
        rw [hv] at hab
        simp only [Option.getD_some] at hab
        cases hj : jsGetLast (mkReverseVocab v) a with
        | none => rw [hj] at hab; simp at hab
        | some route =>
          rw [hj] at hab
          have hab2 : (if route ≠ "" ∧ route ≠ "<PAD>" ∧ route ≠ "<UNK>"
              then some route else none) = some b := hab
          by_cases hc : route ≠ "" ∧ route ≠ "<PAD>" ∧ route ≠ "<UNK>"
          · rw [if_pos hc] at hab2
            have hb : route = b := Option.some.inj hab2
            subst hb
            exact ⟨rfl, hc.2.1, hc.2.2⟩
          · rw [if_neg hc] at hab2
            simp at hab2
      unfold predictWithModel
      rw [if_neg (by simp [hg])]
      split
      · exact ⟨by simp, by simp, by simp, by simp⟩
      · refine ⟨?_, ?_, ?_, ?_⟩
        · exact le_trans (List.length_filterMap_le _ _) (by simp)
        · refine List.Nodup.filterMap ?_ ?_
          · intro a a' b hb hb'
            rw [Option.mem_def] at hb hb'
            exact jsGetLast_inj hnd (hf_some a b hb).1 (hf_some a' b hb').1
          · exact (hidx topIndices hinf).sublist (List.take_sublist 3 topIndices)
        · intro hmem
          obtain ⟨a, _, hfa⟩ := List.mem_filterMap.mp hmem
          exact (hf_some a _ hfa).2.1 rfl
        · intro hmem
          obtain ⟨a, _, hfa⟩ := List.mem_filterMap.mp hmem
          exact (hf_some a _ hfa).2.2 rfl
    · rw [predictWithModel_guard_false _ s paths (Bool.eq_false_iff.mpr hg)]
      exact ⟨by simp, by simp, by simp, by simp⟩

theorem loadModelRun_rvocab_wf (env : LoadEnv) (s : SvcState)
    (hrv : RVocabWF s)
    (henv : ∀ v, env.vocabFetch = some v → (v.map Prod.fst).Nodup) :
    RVocabWF (loadModelRun env s) := by
  unfold loadModelRun
  split
  · exact hrv
  · split
    · exact hrv
    · unfold applyLoad
      split
      · exact Or.inl rfl
      · cases hvf : env.vocabFetch with
        | none => exact Or.inl rfl
        | some v => exact Or.inr ⟨v, rfl, henv v hvf⟩


/-- C6: for every input, `getPredictedRoutes` (server side) returns an ok
list of length at most 3, without duplicates and containing neither
"<PAD>" nor "<UNK>"; and whenever the model path produces a non-empty
filtered list, that list is returned as-is (never topped up from the
rule-based table).  Hypotheses record two facts about the surrounding
runtime: object keys parsed from the vocabulary JSON are distinct, and
the indices returned by the inference runtime's top-k are distinct. -/
theorem prediction_invariants (env : LoadEnv) (infer : InferOracle)
    (s : SvcState) (paths : List String)
    (hrv : RVocabWF s)
    (henv : ∀ v, env.vocabFetch = some v → (v.map Prod.fst).Nodup)
    (hidx : ∀ l, infer = .ok l → l.Nodup) :
    ∃ routes, (getPredictedRoutes env infer false s paths).2 = .ok routes ∧
      routes.length ≤ 3 ∧ routes.Nodup ∧
      "<PAD>" ∉ routes ∧ "<UNK>" ∉ routes ∧
      (paths ≠ [] →
        ((loadModelRun env s).model = true ∧
          (loadModelRun env s).vocab.isSome = true) →
        predictWithModel infer (loadModelRun env s) paths ≠ [] →
        routes = predictWithModel infer (loadModelRun env s) paths) := by
  unfold getPredictedRoutes
  rw [if_neg (by simp)]
  by_cases hemp : paths.isEmpty = true
  · rw [if_pos hemp]
    exact ⟨[], rfl, by simp, by simp, by simp, by simp,
      fun hne _ _ => absurd (List.isEmpty_iff.mp hemp) hne⟩
  · rw [if_neg hemp]
    have hwf : RVocabWF (loadModelRun env s) := loadModelRun_rvocab_wf env s hrv henv
    have hpwf := predictWithModel_wf infer (loadModelRun env s) paths hwf hidx
    have hrf := ruleFallbackLast_wf (paths.getLastD "")
    have htk : (ruleFallbackLast (paths.getLastD "")).take 3 =
        ruleFallbackLast (paths.getLastD "") :=
      List.take_of_length_le (le_of_eq hrf.1)
    by_cases hready : (loadModelRun env s).model = true ∧
        (loadModelRun env s).vocab.isSome = true
    · rw [if_pos hready]
      by_cases hlen : (predictWithModel infer (loadModelRun env s) paths).length > 0
      · rw [if_pos hlen]
        have htake : (predictWithModel infer (loadModelRun env s) paths).take 3 =
            predictWithModel infer (loadModelRun env s) paths :=
          List.take_of_length_le hpwf.1
        refine ⟨_, rfl, ?_, ?_, ?_, ?_, fun _ _ _ => htake⟩
        · rw [htake]; exact hpwf.1
        · rw [htake]; exact hpwf.2.1
        · rw [htake]; exact hpwf.2.2.1
        · rw [htake]; exact hpwf.2.2.2
      · rw [if_neg hlen]
        refine ⟨_, rfl, ?_, ?_, ?_, ?_, ?_⟩
        · rw [htk]; exact le_of_eq hrf.1
        · rw [htk]; exact hrf.2.1
        · rw [htk]; exact hrf.2.2.1
        · rw [htk]; exact hrf.2.2.2
        · intro _ _ hne'
          exfalso
          apply hne'
          have h0 : (predictWithModel infer (loadModelRun env s) paths).length = 0 := by
            omega
          exact List.eq_nil_of_length_eq_zero h0
    · rw [if_neg hready]
      refine ⟨_, rfl, ?_, ?_, ?_, ?_, fun _ hready' _ => absurd hready' hready⟩
      · rw [htk]; exact le_of_eq hrf.1
      · rw [htk]; exact hrf.2.1
      · rw [htk]; exact hrf.2.2.1
      · rw [htk]; exact hrf.2.2.2

/-- Witness for C6: a fully loaded environment with a three-entry
vocabulary and top-k indices `[2, 0, 1]` yields the singleton list
`["/"]`, with PAD and UNKNOWN filtered out. -/
theorem prediction_invariants_witness :
    ∃ routes,
      (getPredictedRoutes envLoaded (.ok [2, 0, 1]) false SvcState.init ["/"]).2 =
        .ok routes ∧
      routes.length ≤ 3 ∧ routes.Nodup ∧
      "<PAD>" ∉ routes ∧ "<UNK>" ∉ routes ∧
      (["/"] ≠ ([] : List String) →
        ((loadModelRun envLoaded SvcState.init).model = true ∧
          (loadModelRun envLoaded SvcState.init).vocab.isSome = true) →
        predictWithModel (.ok [2, 0, 1]) (loadModelRun envLoaded SvcState.init) ["/"] ≠ [] →
        routes = predictWithModel (.ok [2, 0, 1])
          (loadModelRun envLoaded SvcState.init) ["/"]) :=
  prediction_invariants envLoaded (.ok [2, 0, 1]) SvcState.init ["/"]
    (Or.inl rfl) (fun v hv => by cases hv; decide) (fun l hl => by cases hl; decide)

end Prefetch
